import Mathlib

/-!
Verification of the SignalXPro admin backend (src/app.py).

The development shallowly embeds the Flask handlers of `app.py`:
the `Signal` and `Strategy` records, the record store (two lists),
the five mutating endpoints, the three read endpoints, the stats
computation, and the socket events emitted by the signal endpoints.
Timestamps are modelled as naturals (`datetime.utcnow` becomes a `now`
parameter), generated ids as a `genId` parameter, and the JSON text
stored in the `Strategy.images` column through an executable model of
`json.dumps` / `json.loads`.
-/

namespace SignalXPro

/-- JSON values, as handled by Python's `json` module at the storage
boundary of `Strategy.images` (`app.py` lines 47, 50-61, 115).
Numbers are modelled as integers; floats are not needed by any record
this service writes. -/
inductive JValue where
  | null : JValue
  | bool : Bool → JValue
  | num : Int → JValue
  | str : String → JValue
  | arr : List JValue → JValue
  | obj : List (String × JValue) → JValue
deriving Repr

mutual
/-- Modelled from `json.dumps` (default separators `", "` and `": "`,
as used at `app.py` line 115). Strings are emitted verbatim between
quotes: the model is faithful for strings made of printable ASCII
characters other than `"` and `\` (no escape sequences are produced). -/
def dumpsChars : JValue → List Char
  | .null => ("null").data
  | .bool b => if b then ("true").data else ("false").data
  | .num n => (toString n).data
  | .str s => '"' :: s.data ++ ['"']
  | .arr l => '[' :: dumpsArr l ++ [']']
  | .obj l => '\x7b' :: dumpsObj l ++ ['\x7d']
def dumpsArr : List JValue → List Char
  | [] => []
  | [v] => dumpsChars v
  | v :: w :: rest => dumpsChars v ++ ',' :: ' ' :: dumpsArr (w :: rest)
def dumpsObj : List (String × JValue) → List Char
  | [] => []
  | [(k, v)] => '"' :: k.data ++ '"' :: ':' :: ' ' :: dumpsChars v
  | (k, v) :: m :: rest =>
      '"' :: k.data ++ '"' :: ':' :: ' ' :: dumpsChars v ++ ',' :: ' ' :: dumpsObj (m :: rest)
end

/-- `json.dumps` producing a `String` for the `images` column. -/
def dumps (v : JValue) : String := String.mk (dumpsChars v)

/-- JSON insignificant whitespace. -/
def isJsonWs (c : Char) : Bool := c = ' ' || c = '\n' || c = '\t' || c = '\r'

def skipWs : List Char → List Char
  | c :: rest => if isJsonWs c then skipWs rest else c :: rest
  | [] => []

/-- Body of a JSON string after the opening quote, up to the closing
quote. Escape sequences are outside the model and make decoding fail. -/
def parseStringBody : List Char → Option (List Char × List Char)
  | [] => none
  | c :: rest =>
    if c = '"' then some ([], rest)
    else if c = '\\' then none
    else
      match parseStringBody rest with
      | some (s, r) => some (c :: s, r)
      | none => none

def parseDigits : List Char → (List Char × List Char)
  | [] => ([], [])
  | c :: rest =>
    if c.isDigit then
      let p := parseDigits rest
      (c :: p.1, p.2)
    else ([], c :: rest)

def digitsVal (ds : List Char) : Nat := ds.foldl (fun a c => a * 10 + (c.toNat - 48)) 0

def parseNum (cs : List Char) : Option (Int × List Char) :=
  match cs with
  | '-' :: rest =>
    let p := parseDigits rest
    if p.1.isEmpty then none else some (-(digitsVal p.1 : Int), p.2)
  | _ =>
    let p := parseDigits cs
    if p.1.isEmpty then none else some ((digitsVal p.1 : Int), p.2)

/-- Comma-separated array elements, consuming the closing `]`. `pv`
parses one value at the current nesting level; the input is expected
with leading whitespace already skipped. -/
def parseArrAux (pv : List Char → Option (JValue × List Char)) :
    Nat → List Char → Option (List JValue × List Char)
  | 0, _ => none
  | fuel+1, cs =>
    match pv cs with
    | none => none
    | some (v, r) =>
      match skipWs r with
      | ']' :: r2 => some ([v], r2)
      | ',' :: r2 =>
        match parseArrAux pv fuel (skipWs r2) with
        | some (vs, r3) => some (v :: vs, r3)
        | none => none
      | _ => none

/-- Comma-separated object members, consuming the closing brace. -/
def parseObjAux (pv : List Char → Option (JValue × List Char)) :
    Nat → List Char → Option (List (String × JValue) × List Char)
  | 0, _ => none
  | fuel+1, cs =>
    match cs with
    | '"' :: r0 =>
      match parseStringBody r0 with
      | none => none
      | some (k, r1) =>
        match skipWs r1 with
        | ':' :: r2 =>
          match pv (skipWs r2) with
          | none => none
          | some (v, r3) =>
            match skipWs r3 with
            | '\x7d' :: r4 => some ([(String.mk k, v)], r4)
            | ',' :: r4 =>
              match parseObjAux pv fuel (skipWs r4) with
              | some (ms, r5) => some ((String.mk k, v) :: ms, r5)
              | none => none
            | _ => none
        | _ => none
    | _ => none

/-- Modelled from `json.loads`: recursive-descent JSON value parser.
The fuel bounds the recursion; `loads` supplies enough for any input. -/
def parseValue : Nat → List Char → Option (JValue × List Char)
  | 0, _ => none
  | fuel+1, cs =>
    match cs with
    | 'n' :: 'u' :: 'l' :: 'l' :: rest => some (.null, rest)
    | 't' :: 'r' :: 'u' :: 'e' :: rest => some (.bool true, rest)
    | 'f' :: 'a' :: 'l' :: 's' :: 'e' :: rest => some (.bool false, rest)
    | '"' :: rest =>
      match parseStringBody rest with
      | some (s, r) => some (.str (String.mk s), r)
      | none => none
    | '[' :: rest =>
      match skipWs rest with
      | ']' :: r2 => some (.arr [], r2)
      | r0 =>
        match parseArrAux (parseValue fuel) fuel r0 with
        | some (vs, r2) => some (.arr vs, r2)
        | none => none
    | '\x7b' :: rest =>
      match skipWs rest with
      | '\x7d' :: r2 => some (.obj [], r2)
      | r0 =>
        match parseObjAux (parseValue fuel) fuel r0 with
        | some (ms, r2) => some (.obj ms, r2)
        | none => none
    | _ =>
      match parseNum cs with
      | some (n, r) => some (.num n, r)
      | none => none

/-- `json.loads`: parse a whole document; trailing content other than
whitespace is an error. -/
def loads (s : String) : Option JValue :=
  match parseValue (s.data.length + 1) (skipWs s.data) with
  | some (v, r) => if skipWs r = [] then some v else none
  | none => none

/-- Row of the `Signal` table (`app.py` lines 21-29). `created_at`
and `resolved_at` timestamps are naturals; `status`, `direction` and
`result` are the raw strings the code stores. -/
structure Signal where
  id : String
  pair : String
  direction : String
  duration : Int
  created_at : Nat
  status : String
  result : Option String
  resolved_at : Option Nat
deriving Repr, DecidableEq

/-- The JSON object built by `Signal.to_dict` (`app.py` lines 31-41);
`isoformat` timestamp rendering is modelled by the timestamp itself. -/
structure SignalDict where
  id : String
  pair : String
  direction : String
  duration : Int
  created_at : Nat
  status : String
  result : Option String
  resolved_at : Option Nat
deriving Repr, DecidableEq

def Signal.to_dict (s : Signal) : SignalDict :=
  ⟨s.id, s.pair, s.direction, s.duration, s.created_at, s.status, s.result, s.resolved_at⟩

/-- Row of the `Strategy` table (`app.py` lines 43-48); `images` is the
nullable Text column holding a JSON string. -/
structure Strategy where
  id : String
  title : String
  content : String
  images : Option String
  created_at : Nat
deriving Repr, DecidableEq

/-- The JSON object built by `Strategy.to_dict` (`app.py` lines 50-61):
`images` is whatever JSON value the stored text decodes to. -/
structure StrategyDict where
  id : String
  title : String
  content : String
  images : JValue
  created_at : Nat
deriving Repr

/-- `Strategy.to_dict` (`app.py` lines 50-61): `json.loads(self.images)
if self.images else []`, with any decoding exception mapped to `[]`. An
absent column and a falsy (empty) string both yield `[]`. -/
def Strategy.to_dict (s : Strategy) : StrategyDict :=
  let imgs : JValue :=
    match s.images with
    | none => .arr []
    | some t =>
      if t = "" then .arr []
      else
        match loads t with
        | some v => v
        | none => .arr []
  ⟨s.id, s.title, s.content, imgs, s.created_at⟩

/-- The record store: the two tables of `signalxpro.db`. -/
structure DB where
  signals : List Signal
  strategies : List Strategy
deriving Repr, DecidableEq

def DB.empty : DB := ⟨[], []⟩

/-- A `socketio.emit(name, payload)` call (`app.py` lines 84, 97). -/
structure Event where
  name : String
  payload : SignalDict
deriving Repr, DecidableEq

/-- HTTP responses of the API endpoints. `serverError` stands for an
exception escaping the handler (Flask answers 500); `notFound` is a 404
with an error body. -/
inductive Resp where
  | success : Resp
  | successSignal : SignalDict → Resp
  | successStrategy : StrategyDict → Resp
  | notFound : String → Resp
  | serverError : String → Resp
deriving Repr

/-- JSON body of `POST /api/signals`; a missing key makes the handler
raise `KeyError`. `int(data['duration'])` is modelled by taking the
duration as an integer. -/
structure SignalPostBody where
  pair : Option String
  direction : Option String
  duration : Option Int
deriving Repr

/-- JSON body of `POST /api/strategies`; `images` may be any JSON value
(the code never validates it). -/
structure StrategyPostBody where
  title : Option String
  content : Option String
  images : Option JValue
deriving Repr

/-- `Signal.query.get(signal_id)`: primary-key lookup, first row with
the given id. -/
def findSignal (db : DB) (id : String) : Option Signal :=
  db.signals.find? (fun s => s.id == id)

/-- Mutation of the row object found by `query.get`: the first row with
the given id is updated in place. -/
def updateFirstSignal (id : String) (upd : Signal → Signal) : List Signal → List Signal
  | [] => []
  | s :: rest => if s.id == id then upd s :: rest else s :: updateFirstSignal id upd rest

/-- `db.session.delete(strategy)` on the row found by `query.get`. -/
def removeFirstStrategy (id : String) : List Strategy → List Strategy
  | [] => []
  | t :: rest => if t.id == id then rest else t :: removeFirstStrategy id rest

/-- Descending creation time, `order_by(created_at.desc())`. -/
def newerSignal (a b : Signal) : Prop := b.created_at ≤ a.created_at

instance : DecidableRel newerSignal := fun a b =>
  inferInstanceAs (Decidable (b.created_at ≤ a.created_at))

instance : IsTotal Signal newerSignal :=
  ⟨fun a b => le_total b.created_at a.created_at⟩

instance : IsTrans Signal newerSignal :=
  ⟨fun _ _ _ hab hbc => le_trans hbc hab⟩

def newerStrategy (a b : Strategy) : Prop := b.created_at ≤ a.created_at

instance : DecidableRel newerStrategy := fun a b =>
  inferInstanceAs (Decidable (b.created_at ≤ a.created_at))

instance : IsTotal Strategy newerStrategy :=
  ⟨fun a b => le_total b.created_at a.created_at⟩

instance : IsTrans Strategy newerStrategy :=
  ⟨fun _ _ _ hab hbc => le_trans hbc hab⟩

/-- `GET /api/signals` (`app.py` lines 72-74): all signals ordered by
descending `created_at`, serialized by `to_dict`. -/
def handle_signals_get (db : DB) : List SignalDict :=
  (List.insertionSort newerSignal db.signals).map Signal.to_dict

/-- `POST /api/signals` (`app.py` lines 75-85): builds the row from the
request body (missing keys raise `KeyError`), persists it with
`status='active'`, emits `new_signal` with `to_dict`, and answers
`{success, signal}`. No field value is validated. -/
def handle_signals_post (db : DB) (now : Nat) (genId : String) (body : SignalPostBody) :
    Resp × DB × List Event :=
  match body.pair, body.direction, body.duration with
  | some p, some d, some dur =>
    let s : Signal := ⟨genId, p, d, dur, now, "active", none, none⟩
    (.successSignal s.to_dict, ⟨db.signals ++ [s], db.strategies⟩, [⟨"new_signal", s.to_dict⟩])
  | _, _, _ => (.serverError ("KeyError"), db, [])

/-- The field updates of `resolve_signal` (`app.py` lines 93-95):
`status='completed'`, `result=data['result']`, `resolved_at=utcnow()`.
Applied unconditionally, whatever the current status. -/
def resolveUpdate (now : Nat) (r : String) (s : Signal) : Signal :=
  ⟨s.id, s.pair, s.direction, s.duration, s.created_at, "completed", some r, some now⟩

/-- `POST /api/signals/<id>/resolve` (`app.py` lines 87-98): 404 when
the id is absent, `KeyError` when the body has no `result`, otherwise
the unconditional update, a `signal_resolved` event with the updated
row, and `{success: true}`. -/
def resolve_signal (db : DB) (now : Nat) (signal_id : String) (result : Option String) :
    Resp × DB × List Event :=
  match findSignal db signal_id with
  | none => (.notFound ("Signal not found"), db, [])
  | some s =>
    match result with
    | none => (.serverError ("KeyError"), db, [])
    | some r =>
      let s2 := resolveUpdate now r s
      (.success,
       ⟨updateFirstSignal signal_id (resolveUpdate now r) db.signals, db.strategies⟩,
       [⟨"signal_resolved", s2.to_dict⟩])

/-- `GET /api/signals/active` (`app.py` lines 100-103). -/
def active_signals (db : DB) : List SignalDict :=
  (db.signals.filter (fun s => s.status == "active")).map Signal.to_dict

/-- `GET /api/strategies` (`app.py` lines 107-109): newest first. -/
def handle_strategies_get (db : DB) : List StrategyDict :=
  (List.insertionSort newerStrategy db.strategies).map Strategy.to_dict

/-- `POST /api/strategies` (`app.py` lines 110-119): stores
`json.dumps(data.get('images', []))` in the `images` column and answers
with the strategy's `to_dict`. -/
def handle_strategies_post (db : DB) (now : Nat) (genId : String) (body : StrategyPostBody) :
    Resp × DB :=
  match body.title, body.content with
  | some t, some c =>
    let st : Strategy := ⟨genId, t, c, some (dumps (body.images.getD (.arr []))), now⟩
    (.successStrategy st.to_dict, ⟨db.signals, db.strategies ++ [st]⟩)
  | _, _ => (.serverError ("KeyError"), db)

/-- `DELETE /api/strategies` (`app.py` lines 120-123): unconditionally
empties the table. -/
def handle_strategies_delete_all (db : DB) : Resp × DB :=
  (.success, ⟨db.signals, []⟩)

/-- `DELETE /api/strategies/<id>` (`app.py` lines 125-132). -/
def delete_strategy (db : DB) (strategy_id : String) : Resp × DB :=
  match db.strategies.find? (fun t => t.id == strategy_id) with
  | some _ => (.success, ⟨db.signals, removeFirstStrategy strategy_id db.strategies⟩)
  | none => (.notFound ("Strategy not found"), db)

/-- Python's `round` on the exact value: round half to even at integer
precision. -/
def roundHalfEven (q : ℚ) : ℤ :=
  let f := ⌊q⌋
  if q - f = 1/2 then (if f % 2 = 0 then f else f + 1)
  else ⌊q + 1/2⌋

/-- `round(x, 1)`: one decimal digit, half to even. -/
def round1 (q : ℚ) : ℚ := (roundHalfEven (q * 10) : ℚ) / 10

def countSignals (db : DB) (p : Signal → Bool) : Nat := (db.signals.filter p).length

def completedCount (db : DB) : Nat := countSignals db (fun s => s.status == "completed")

def winsCount (db : DB) : Nat := countSignals db (fun s => s.result == some "win")

/-- The `GET /api/stats` response body (`app.py` lines 142-150). -/
structure Stats where
  active_users : Nat
  open_trades : Nat
  win_rate : ℚ
  strategies_count : Nat
  total_signals : Nat
  wins : Nat
  losses : Nat
deriving Repr, DecidableEq

/-- `GET /api/stats` (`app.py` lines 134-150): counts over the current
tables; `win_rate = round(wins / completed * 100, 1)` guarded by
`completed > 0`, else `0`; `active_users` is the hardcoded 8542. -/
def get_stats (db : DB) : Stats :=
  let completed := completedCount db
  let wins := winsCount db
  ⟨8542,
   countSignals db (fun s => s.status == "active"),
   if completed > 0 then round1 ((wins : ℚ) / (completed : ℚ) * 100) else 0,
   db.strategies.length,
   db.signals.length,
   wins,
   countSignals db (fun s => s.result == some "loss")⟩

/-- One request to a mutating endpoint, with arbitrary request data,
timestamp and generated id. The GET endpoints return the store
unchanged and are not steps. -/
inductive Step : DB → DB → Prop where
  | postSignal (db : DB) (now : Nat) (genId : String) (body : SignalPostBody) :
      Step db (handle_signals_post db now genId body).2.1
  | resolveSig (db : DB) (now : Nat) (id : String) (result : Option String) :
      Step db (resolve_signal db now id result).2.1
  | postStrategy (db : DB) (now : Nat) (genId : String) (body : StrategyPostBody) :
      Step db (handle_strategies_post db now genId body).2
  | delStrategy (db : DB) (id : String) :
      Step db (delete_strategy db id).2
  | delAllStrategies (db : DB) :
      Step db (handle_strategies_delete_all db).2

/-- Stores reachable from the fresh database through the public
endpoints. -/
inductive Reachable : DB → Prop where
  | base : Reachable DB.empty
  | step {db db2 : DB} : Reachable db → Step db db2 → Reachable db2

/-! ## Claim C1: resolving an already-completed signal -/

def c1Db1 : DB :=
  (handle_signals_post DB.empty 1 ("sig1") ⟨some ("EUR/USD"), some ("buy"), some 5⟩).2.1

def c1Db2 : DB := (resolve_signal c1Db1 10 ("sig1") (some ("win"))).2.1

/-- Claim C1: the code has no guard for an already-completed signal.
Resolving `sig1` (already completed with result `win` at time 10) a
second time answers success and overwrites `result` and `resolved_at`,
where the claim requires an InvalidState failure that leaves both
fields as set by the first resolution. -/
theorem resolve_completed_overwrites_result :
    findSignal c1Db2 ("sig1") =
      some ⟨"sig1", "EUR/USD", "buy", 5, 1, "completed", some ("win"), some 10⟩ ∧
    (resolve_signal c1Db2 20 ("sig1") (some ("loss"))).1 = Resp.success ∧
    findSignal (resolve_signal c1Db2 20 ("sig1") (some ("loss"))).2.1 ("sig1") =
      some ⟨"sig1", "EUR/USD", "buy", 5, 1, "completed", some ("loss"), some 20⟩ :=
  ⟨rfl, rfl, rfl⟩

/-! ## Claim C2: validation of create and resolve inputs -/

def c2Db : DB :=
  (handle_signals_post DB.empty 0 ("s1") ⟨some ("EUR/USD"), some ("buy"), some 5⟩).2.1

def c2BadSignal : Signal := ⟨"s2", "", "hold", 0, 0, "active", none, none⟩

/-- Claim C2 counterexample: a creation request with empty `pair`,
direction `hold` and duration `0` is not rejected — the record is
persisted and the handler answers success; and resolving with result
`draw` (outside win/loss) also succeeds. -/
theorem create_accepts_invalid_fields :
    (handle_signals_post DB.empty 0 ("s2") ⟨some (""), some ("hold"), some 0⟩).1 =
      Resp.successSignal c2BadSignal.to_dict ∧
    (handle_signals_post DB.empty 0 ("s2") ⟨some (""), some ("hold"), some 0⟩).2.1.signals =
      [c2BadSignal] ∧
    (resolve_signal c2Db 1 ("s1") (some ("draw"))).1 = Resp.success :=
  ⟨rfl, rfl, rfl⟩

/-- Claim C2 (amended): creation performs no value validation — any
pair (even empty), any direction string and any integer duration
(even non-positive) are accepted and persisted; only a missing body
field aborts the request (unhandled `KeyError`, nothing persisted, no
event). Resolve likewise accepts any provided result string. -/
theorem signal_validation_amended (db : DB) (now : Nat) (g p d : String) (dur : Int) :
    (handle_signals_post db now g ⟨some p, some d, some dur⟩ =
      (Resp.successSignal ⟨g, p, d, dur, now, "active", none, none⟩,
       ⟨db.signals ++ [⟨g, p, d, dur, now, "active", none, none⟩], db.strategies⟩,
       [⟨"new_signal", ⟨g, p, d, dur, now, "active", none, none⟩⟩])) ∧
    (handle_signals_post db now g ⟨none, some d, some dur⟩ =
      (Resp.serverError ("KeyError"), db, [])) ∧
    (handle_signals_post db now g ⟨some p, none, some dur⟩ =
      (Resp.serverError ("KeyError"), db, [])) ∧
    (handle_signals_post db now g ⟨some p, some d, none⟩ =
      (Resp.serverError ("KeyError"), db, [])) ∧
    (∀ id r s, findSignal db id = some s → (resolve_signal db now id (some r)).1 = Resp.success) := by
  refine ⟨rfl, rfl, rfl, rfl, ?_⟩
  intro id r s h
  simp [resolve_signal, h]

theorem signal_validation_amended_witness :
    (resolve_signal c2Db 1 ("s1") (some ("draw"))).1 = Resp.success :=
  (signal_validation_amended c2Db 1 ("g") ("p") ("d") 5).2.2.2.2 ("s1") ("draw")
    ⟨"s1", "EUR/USD", "buy", 5, 0, "active", none, none⟩ rfl

/-! ## Claim C7: NotFound on unknown ids leaves the store unchanged -/

/-- Claim C7: when no stored signal and no stored strategy carries the
requested id, `resolve` and single-strategy delete answer 404 with the
corresponding "... not found" error body, mutate nothing, and emit no
event. -/
theorem notfound_preserves_store (db : DB) (now : Nat) (id : String)
    (result : Option String)
    (hs : ∀ s ∈ db.signals, s.id ≠ id) (ht : ∀ t ∈ db.strategies, t.id ≠ id) :
    resolve_signal db now id result = (.notFound ("Signal not found"), db, []) ∧
    delete_strategy db id = (.notFound ("Strategy not found"), db) := by
  have h1 : findSignal db id = none := by
    apply List.find?_eq_none.mpr
    intro s hsm
    simpa using hs s hsm
  have h2 : db.strategies.find? (fun t => t.id == id) = none := by
    apply List.find?_eq_none.mpr
    intro t htm
    simpa using ht t htm
  exact ⟨by simp [resolve_signal, h1], by simp [delete_strategy, h2]⟩

theorem notfound_preserves_store_witness :
    resolve_signal c2Db 0 ("nope") none = (.notFound ("Signal not found"), c2Db, []) ∧
    delete_strategy c2Db ("nope") = (.notFound ("Strategy not found"), c2Db) :=
  notfound_preserves_store c2Db 0 ("nope") none (by decide) (by decide)

/-! ## Claim C8: list endpoints return everything, newest first -/

/-- Claim C8: `GET /api/signals` returns exactly the stored signals (a
permutation of the table) ordered by descending `created_at`, and
`GET /api/strategies` does the same for strategies. -/
theorem lists_newest_first (db : DB) :
    (∃ l : List Signal, handle_signals_get db = l.map Signal.to_dict ∧
      l.Perm db.signals ∧ l.Sorted newerSignal) ∧
    (∃ m : List Strategy, handle_strategies_get db = m.map Strategy.to_dict ∧
      m.Perm db.strategies ∧ m.Sorted newerStrategy) :=
  ⟨⟨List.insertionSort newerSignal db.signals, rfl,
      List.perm_insertionSort _ _, List.sorted_insertionSort _ _⟩,
   ⟨List.insertionSort newerStrategy db.strategies, rfl,
      List.perm_insertionSort _ _, List.sorted_insertionSort _ _⟩⟩

/-! ## Claim C9: resolution touches only the resolution fields -/

/-- Fields of a `Signal` that are set at creation and never changed by
any endpoint. -/
def immutableFields (a b : Signal) : Prop :=
  a.id = b.id ∧ a.pair = b.pair ∧ a.direction = b.direction ∧
  a.duration = b.duration ∧ a.created_at = b.created_at

lemma immutableFields_refl (s : Signal) : immutableFields s s :=
  ⟨rfl, rfl, rfl, rfl, rfl⟩

lemma forall2_immutable_refl (l : List Signal) : List.Forall₂ immutableFields l l := by
  induction l with
  | nil => exact List.Forall₂.nil
  | cons s rest ih => exact List.Forall₂.cons (immutableFields_refl s) ih

lemma forall2_updateFirstSignal (id : String) (upd : Signal → Signal)
    (h : ∀ s, immutableFields s (upd s)) :
    ∀ l : List Signal, List.Forall₂ immutableFields l (updateFirstSignal id upd l) := by
  intro l
  induction l with
  | nil => exact List.Forall₂.nil
  | cons s rest ih =>
    by_cases hc : (s.id == id) = true
    · simp only [updateFirstSignal, hc, if_pos]
      exact List.Forall₂.cons (h s) (forall2_immutable_refl rest)
    · simp only [updateFirstSignal, hc, if_neg, Bool.false_eq_true, not_false_iff]
      exact List.Forall₂.cons (immutableFields_refl s) ih

/-- Claim C9: `resolve` leaves every signal's `id`, `pair`,
`direction`, `duration` and `created_at` unchanged (row for row) and
does not touch the strategy table; and signal creation only appends,
leaving every existing signal record untouched. -/
theorem resolve_modifies_only_resolution_fields (db : DB) (now : Nat) (id : String)
    (result : Option String) (g : String) (body : SignalPostBody) :
    List.Forall₂ immutableFields db.signals (resolve_signal db now id result).2.1.signals ∧
    (resolve_signal db now id result).2.1.strategies = db.strategies ∧
    (∃ tail, (handle_signals_post db now g body).2.1.signals = db.signals ++ tail) := by
  refine ⟨?_, ?_, ?_⟩
  · cases hf : findSignal db id with
    | none => simp only [resolve_signal, hf]; exact forall2_immutable_refl db.signals
    | some s =>
      cases result with
      | none => simp only [resolve_signal, hf]; exact forall2_immutable_refl db.signals
      | some r =>
        simp only [resolve_signal, hf]
        exact forall2_updateFirstSignal id (resolveUpdate now r)
          (fun s => ⟨rfl, rfl, rfl, rfl, rfl⟩) db.signals
  · cases hf : findSignal db id with
    | none => simp [resolve_signal, hf]
    | some s => cases result <;> simp [resolve_signal, hf]
  · rcases body with ⟨p, d, dur⟩
    cases p <;> cases d <;> cases dur <;> simp [handle_signals_post]

/-! ## Claim C10: status is binary, so totals partition -/

lemma mem_updateFirstSignal {s : Signal} {id : String} {upd : Signal → Signal} :
    ∀ {l : List Signal}, s ∈ updateFirstSignal id upd l → s ∈ l ∨ ∃ t ∈ l, s = upd t := by
  intro l
  induction l with
  | nil => intro h; simp [updateFirstSignal] at h
  | cons a rest ih =>
    intro h
    by_cases hc : (a.id == id) = true
    · simp only [updateFirstSignal, hc, if_pos] at h
      rcases List.mem_cons.mp h with h1 | h1
      · exact Or.inr ⟨a, List.mem_cons_self a rest, h1⟩
      · exact Or.inl (List.mem_cons_of_mem a h1)
    · simp only [updateFirstSignal, hc, if_neg, Bool.false_eq_true, not_false_iff] at h
      rcases List.mem_cons.mp h with h1 | h1
      · exact Or.inl (h1 ▸ List.mem_cons_self a rest)
      · rcases ih h1 with h2 | ⟨t, ht, h3⟩
        · exact Or.inl (List.mem_cons_of_mem a h2)
        · exact Or.inr ⟨t, List.mem_cons_of_mem a ht, h3⟩

/-- Every signal ever stored has status `active` (set at creation) or
`completed` (set by resolution). -/
lemma reachable_status (db : DB) (h : Reachable db) :
    ∀ s ∈ db.signals, s.status = "active" ∨ s.status = "completed" := by
  induction h with
  | base => intro s hs; simp [DB.empty] at hs
  | @step db db2 _ hstep ih =>
    cases hstep with
    | postSignal now g body =>
      rcases body with ⟨p, d, dur⟩
      cases p <;> cases d <;> cases dur <;> intro s hs <;>
        simp only [handle_signals_post] at hs
      case some.some.some p d dur =>
        rcases List.mem_append.mp hs with h1 | h1
        · exact ih s h1
        · left
          simp only [List.mem_singleton] at h1
          rw [h1]
      all_goals exact ih s hs
    | resolveSig now id result =>
      cases hf : findSignal db id with
      | none => simpa [resolve_signal, hf] using ih
      | some t =>
        cases result with
        | none => simpa [resolve_signal, hf] using ih
        | some r =>
          intro s hs
          simp only [resolve_signal, hf] at hs
          rcases mem_updateFirstSignal hs with h1 | ⟨t2, _, h2⟩
          · exact ih s h1
          · right; rw [h2]; rfl
    | postStrategy now g body =>
      rcases body with ⟨t, c, imgs⟩
      cases t <;> cases c <;> simpa [handle_strategies_post] using ih
    | delStrategy id =>
      cases hf : db.strategies.find? (fun t => t.id == id) with
      | none => simpa [delete_strategy, hf] using ih
      | some t => simpa [delete_strategy, hf] using ih
    | delAllStrategies => simpa [handle_strategies_delete_all] using ih

lemma length_filter_status (l : List Signal)
    (h : ∀ s ∈ l, s.status = "active" ∨ s.status = "completed") :
    l.length = (l.filter (fun s => s.status == "active")).length +
      (l.filter (fun s => s.status == "completed")).length := by
  induction l with
  | nil => simp
  | cons s rest ih =>
    have hrest := ih (fun t ht => h t (List.mem_cons_of_mem s ht))
    rcases h s (List.mem_cons_self s rest) with h1 | h1 <;>
      simp [List.filter_cons, h1, hrest] <;> omega

/-- Claim C10: in every reachable store each signal's status is
`active` or `completed`, hence the `total_signals` figure of the stats
endpoint is the `open_trades` figure plus the completed count. -/
theorem signal_status_binary (db : DB) (h : Reachable db) :
    (∀ s ∈ db.signals, s.status = "active" ∨ s.status = "completed") ∧
    (get_stats db).total_signals = (get_stats db).open_trades + completedCount db := by
  refine ⟨reachable_status db h, ?_⟩
  simpa [get_stats, completedCount, countSignals] using
    length_filter_status db.signals (reachable_status db h)

def w10Db : DB :=
  (resolve_signal
    (handle_signals_post DB.empty 1 ("w10") ⟨some ("EUR/USD"), some ("buy"), some 5⟩).2.1
    2 ("w10") (some ("win"))).2.1

theorem signal_status_binary_witness :
    (∀ s ∈ w10Db.signals, s.status = "active" ∨ s.status = "completed") ∧
    (get_stats w10Db).total_signals = (get_stats w10Db).open_trades + completedCount w10Db :=
  signal_status_binary w10Db
    (Reachable.step
      (Reachable.step Reachable.base
        (Step.postSignal DB.empty 1 ("w10") ⟨some ("EUR/USD"), some ("buy"), some 5⟩))
      (Step.resolveSig _ 2 ("w10") (some ("win"))))

/-! ## Claim C3: the win-rate formula -/

def c3Create (db : DB) (n : Nat) (g : String) : DB :=
  (handle_signals_post db n g ⟨some ("EUR/USD"), some ("buy"), some 1⟩).2.1

/-- Four signals created, then three resolved: two wins, one loss, one
still active. -/
def c3Db : DB :=
  (resolve_signal
    (resolve_signal
      (resolve_signal
        (c3Create (c3Create (c3Create (c3Create DB.empty 1 ("a")) 2 ("b")) 3 ("c")) 4 ("d"))
        5 ("a") (some ("win"))).2.1
      6 ("b") (some ("win"))).2.1
    7 ("c") (some ("loss"))).2.1

/-- Claim C3: `win_rate` is `0` when no signal is completed and
otherwise `round(wins / completed * 100, 1)` with `wins` the count of
signals whose result is `win`; on the store with 3 completed signals
and 2 wins it is `66.7`. -/
theorem stats_win_rate_formula (db : DB) :
    ((get_stats db).win_rate =
      if completedCount db = 0 then 0
      else round1 ((winsCount db : ℚ) / (completedCount db : ℚ) * 100)) ∧
    completedCount c3Db = 3 ∧ winsCount c3Db = 2 ∧
    (get_stats c3Db).win_rate = 667 / 10 := by
  refine ⟨?_, rfl, rfl, ?_⟩
  · by_cases h : completedCount db = 0 <;> simp [get_stats, h]
  · have hc : completedCount c3Db = 3 := rfl
    have hw : winsCount c3Db = 2 := rfl
    simp only [get_stats, hc, hw]
    norm_num
    unfold round1 roundHalfEven
    rw [show ((200 : ℚ) / 3 * 10) = 2000 / 3 by norm_num]
    norm_num

/-! ## Claim C4: the images column always decodes to a string list -/

/-- Whether a decoded `images` value is a sequence of strings. -/
def isStringArray : JValue → Bool
  | .arr l => l.all (fun v => match v with | .str _ => true | _ => false)
  | _ => false

/-- A strategy created through the API with `images: 42` in the
request body (the code never validates the field's type). -/
def numericImagesOut : Resp × DB :=
  handle_strategies_post DB.empty 0 ("st1") ⟨some ("T"), some ("B"), some (.num 42)⟩

/-- Claim C4 counterexample: a stored strategy whose `images` text is
`42` (valid JSON, produced by the API itself) reads back with `images`
equal to the number 42 — not a sequence of strings. -/
theorem strategy_images_can_be_nonstrings :
    numericImagesOut.2.strategies.map Strategy.to_dict =
      [⟨"st1", "T", "B", JValue.num 42, 0⟩] ∧
    isStringArray (JValue.num 42) = false :=
  ⟨rfl, rfl⟩

/-- Claim C4 (amended): when the stored `images` text is absent or
fails to decode as JSON, reading the record back yields the empty
sequence rather than an error; when it does decode, the decoded value
is returned as is (and need not be a sequence of strings). -/
theorem strategy_images_decode_amended (st : Strategy) (t : String) :
    (st.images = none → st.to_dict.images = JValue.arr []) ∧
    (st.images = some t → loads t = none → st.to_dict.images = JValue.arr []) ∧
    (∀ v, st.images = some t → t ≠ "" → loads t = some v → st.to_dict.images = v) := by
  refine ⟨?_, ?_, ?_⟩
  · intro h; simp [Strategy.to_dict, h]
  · intro h hl
    by_cases he : t = "" <;> simp [Strategy.to_dict, h, he, hl]
  · intro v h he hl
    simp [Strategy.to_dict, h, he, hl]

theorem strategy_images_decode_amended_witness :
    (Strategy.mk ("w4") ("T") ("B") (some ("oops")) 0).to_dict.images = JValue.arr [] :=
  (strategy_images_decode_amended ⟨"w4", "T", "B", some ("oops"), 0⟩ ("oops")).2.1 rfl rfl

/-! ## Claim C6: events are emitted exactly on success -/

lemma find?_updateFirstSignal (id : String) (upd : Signal → Signal)
    (hid : ∀ s, (upd s).id = s.id) :
    ∀ (l : List Signal) (s : Signal), l.find? (fun x => x.id == id) = some s →
      (updateFirstSignal id upd l).find? (fun x => x.id == id) = some (upd s) := by
  intro l
  induction l with
  | nil => intro s h; simp at h
  | cons a rest ih =>
    intro s h
    by_cases hc : (a.id == id) = true
    · simp only [List.find?_cons, hc] at h
      injection h with h
      subst h
      have hc2 : ((upd a).id == id) = true := by rw [hid a]; exact hc
      simp only [updateFirstSignal, hc, if_pos, List.find?_cons, hc2]
    · have hc1 : (a.id == id) = false := by simpa using hc
      simp only [List.find?_cons, hc1] at h
      simp only [updateFirstSignal, hc1, Bool.false_eq_true, if_neg, not_false_iff,
        List.find?_cons]
      exact ih s h

/-- Claim C6: a signal mutation emits exactly one event when (and only
when) it succeeds. A successful create emits one `new_signal` event
whose payload is the record of the HTTP response; a successful resolve
emits one `signal_resolved` event carrying the full updated record now
in the store; failed mutations (missing body field, unknown id) emit
nothing. -/
theorem events_iff_success (db : DB) (now : Nat) (g : String) (body : SignalPostBody)
    (id r : String) :
    (∀ d db2 evs, handle_signals_post db now g body = (Resp.successSignal d, db2, evs) →
      evs = [⟨"new_signal", d⟩]) ∧
    (∀ e db2 evs, handle_signals_post db now g body = (Resp.serverError e, db2, evs) →
      evs = []) ∧
    (∀ resp db2 evs, resolve_signal db now id (some r) = (resp, db2, evs) →
      (resp = Resp.success →
        ∃ s, findSignal db2 id = some s ∧ evs = [⟨"signal_resolved", s.to_dict⟩]) ∧
      (resp ≠ Resp.success → evs = [])) ∧
    (resolve_signal db now id none).2.2 = [] := by
  obtain ⟨p, dr, dur⟩ := body
  refine ⟨?_, ?_, ?_, ?_⟩
  · intro d db2 evs h
    cases p with
    | none =>
      simp only [handle_signals_post] at h
      injection h with h1 h23
      injection h1
    | some p =>
      cases dr with
      | none =>
        simp only [handle_signals_post] at h
        injection h with h1 h23
        injection h1
      | some dr =>
        cases dur with
        | none =>
          simp only [handle_signals_post] at h
          injection h with h1 h23
          injection h1
        | some dur =>
          simp only [handle_signals_post] at h
          injection h with h1 h23
          injection h23 with h2 h3
          injection h1 with h1
          subst h1
          exact h3.symm
  · intro e db2 evs h
    cases p with
    | none =>
      simp only [handle_signals_post] at h
      injection h with h1 h23
      injection h23 with h2 h3
      exact h3.symm
    | some p =>
      cases dr with
      | none =>
        simp only [handle_signals_post] at h
        injection h with h1 h23
        injection h23 with h2 h3
        exact h3.symm
      | some dr =>
        cases dur with
        | none =>
          simp only [handle_signals_post] at h
          injection h with h1 h23
          injection h23 with h2 h3
          exact h3.symm
        | some dur =>
          simp only [handle_signals_post] at h
          injection h with h1 h23
          injection h1
  · intro resp db2 evs h
    cases hf : findSignal db id with
    | none =>
      simp only [resolve_signal, hf] at h
      injection h with h1 h23
      injection h23 with h2 h3
      constructor
      · intro hr
        subst hr
        injection h1
      · intro _
        exact h3.symm
    | some s =>
      simp only [resolve_signal, hf] at h
      injection h with h1 h23
      injection h23 with h2 h3
      constructor
      · intro _
        refine ⟨resolveUpdate now r s, ?_, h3.symm⟩
        rw [← h2]
        exact find?_updateFirstSignal id (resolveUpdate now r) (fun _ => rfl) db.signals s hf
      · intro hr
        exact absurd h1.symm hr
  · cases hf : findSignal db id with
    | none => simp [resolve_signal, hf]
    | some s => simp [resolve_signal, hf]

def w6Body : SignalPostBody := ⟨some ("EUR/USD"), some ("buy"), some 5⟩

def w6Dict : SignalDict := ⟨"w6", "EUR/USD", "buy", 5, 0, "active", none, none⟩

theorem events_iff_success_witness :
    handle_signals_post DB.empty 0 ("w6") w6Body =
      (Resp.successSignal w6Dict, ⟨[⟨"w6", "EUR/USD", "buy", 5, 0, "active", none, none⟩], []⟩,
        [⟨"new_signal", w6Dict⟩]) ∧
    [(⟨"new_signal", w6Dict⟩ : Event)] = [⟨"new_signal", w6Dict⟩] :=
  ⟨rfl,
    (events_iff_success DB.empty 0 ("w6") w6Body ("x") ("win")).1 w6Dict
      ⟨[⟨"w6", "EUR/USD", "buy", 5, 0, "active", none, none⟩], []⟩
      [⟨"new_signal", w6Dict⟩] rfl⟩

/-! ## Claim C5: images round-trip -/

/-- Characters Python's `json.dumps` emits verbatim inside a string
literal: printable ASCII other than the quote and the backslash. -/
def plainChar (c : Char) : Bool :=
  decide (32 ≤ c.toNat) && decide (c.toNat < 128) && c != '"' && c != '\\'

lemma plainChar_spec {c : Char} (h : plainChar c = true) : c ≠ '"' ∧ c ≠ '\\' := by
  simp only [plainChar, Bool.and_eq_true, bne_iff_ne, decide_eq_true_eq] at h
  exact ⟨h.1.2, h.2⟩

lemma skipWs_not_ws {c : Char} (cs : List Char) (h : isJsonWs c = false) :
    skipWs (c :: cs) = c :: cs := by
  simp [skipWs, h]

lemma parseStringBody_plain (s rest : List Char) (h : ∀ c ∈ s, c ≠ '"' ∧ c ≠ '\\') :
    parseStringBody (s ++ '"' :: rest) = some (s, rest) := by
  induction s with
  | nil => simp [parseStringBody]
  | cons c s ih =>
    have hc := h c (List.mem_cons_self c s)
    have ih2 := ih (fun x hx => h x (List.mem_cons_of_mem c hx))
    simp [parseStringBody, hc.1, hc.2, ih2]

lemma parseValue_str (fuel : Nat) (u : String) (rest : List Char)
    (h : ∀ c ∈ u.data, c ≠ '"' ∧ c ≠ '\\') :
    parseValue (fuel + 1) ('"' :: (u.data ++ '"' :: rest)) = some (.str u, rest) := by
  simp [parseValue, parseStringBody_plain u.data rest h]

lemma parseArrAux_step (pv : List Char → Option (JValue × List Char)) (fuel : Nat)
    (cs : List Char) :
    parseArrAux pv (fuel + 1) cs =
      match pv cs with
      | none => none
      | some (v, r) =>
        match skipWs r with
        | ']' :: r2 => some ([v], r2)
        | ',' :: r2 =>
          match parseArrAux pv fuel (skipWs r2) with
          | some (vs, r3) => some (v :: vs, r3)
          | none => none
        | _ => none := rfl

lemma parseValue_arr_quote (fuel : Nat) (t : List Char) :
    parseValue (fuel + 1) ('[' :: '"' :: t) =
      match parseArrAux (parseValue fuel) fuel ('"' :: t) with
      | some (vs, r2) => some (.arr vs, r2)
      | none => none := rfl

/-- The encoding of a nonempty list of strings starts with a quote. -/
lemma dumpsArr_strs_quote (u : String) (l : List String) :
    ∃ t, dumpsArr ((u :: l).map .str) = '"' :: t := by
  cases l with
  | nil => exact ⟨u.data ++ ['"'], rfl⟩
  | cons w l3 =>
    refine ⟨u.data ++ '"' :: ',' :: ' ' :: dumpsArr ((w :: l3).map .str), ?_⟩
    show ('"' :: (u.data ++ ['"'])) ++ ',' :: ' ' :: dumpsArr ((w :: l3).map .str) = _
    simp

lemma parseArrAux_strs (pf : Nat) (l : List String) :
    ∀ (fuel : Nat) (rest : List Char), l ≠ [] → l.length ≤ fuel →
      (∀ u ∈ l, ∀ c ∈ u.data, c ≠ '"' ∧ c ≠ '\\') →
      parseArrAux (parseValue (pf + 1)) fuel (dumpsArr (l.map .str) ++ ']' :: rest) =
        some (l.map JValue.str, rest) := by
  induction l with
  | nil => intro fuel rest hne; exact absurd rfl hne
  | cons u l2 ih =>
    intro fuel rest _ hlen hp
    cases fuel with
    | zero => simp at hlen
    | succ f =>
      have hu := hp u (List.mem_cons_self u l2)
      cases l2 with
      | nil =>
        have hs : dumpsArr ([u].map .str) ++ ']' :: rest =
            '"' :: (u.data ++ '"' :: ']' :: rest) := by
          show ('"' :: (u.data ++ ['"'])) ++ ']' :: rest = _
          simp
        have h1 := parseValue_str pf u (']' :: rest) hu
        rw [hs, parseArrAux_step, h1]
        rfl
      | cons w l3 =>
        have hs : dumpsArr ((u :: w :: l3).map .str) ++ ']' :: rest =
            '"' :: (u.data ++ '"' :: ',' :: ' ' ::
              (dumpsArr ((w :: l3).map .str) ++ ']' :: rest)) := by
          show (('"' :: (u.data ++ ['"'])) ++ ',' :: ' ' :: dumpsArr ((w :: l3).map .str)) ++
              ']' :: rest = _
          simp
        have h1 := parseValue_str pf u
          (',' :: ' ' :: (dumpsArr ((w :: l3).map .str) ++ ']' :: rest)) hu
        have h2 : (w :: l3).length ≤ f := by simpa using hlen
        have ih2 := ih f rest (by simp) h2
          (fun x hx c hc => hp x (List.mem_cons_of_mem u hx) c hc)
        obtain ⟨t, ht⟩ := dumpsArr_strs_quote w l3
        have hw : skipWs (dumpsArr ((w :: l3).map .str) ++ ']' :: rest) =
            dumpsArr ((w :: l3).map .str) ++ ']' :: rest := by
          rw [ht]
          exact skipWs_not_ws _ rfl
        rw [hs, parseArrAux_step, h1]
        show (match parseArrAux (parseValue (pf + 1)) f
            (skipWs (dumpsArr ((w :: l3).map .str) ++ ']' :: rest)) with
          | some (vs, r3) => some (JValue.str u :: vs, r3)
          | none => none) = _
        rw [hw, ih2]
        rfl

lemma parseValue_arr_strs (fuel : Nat) (l : List String) (rest : List Char)
    (hlen : l.length ≤ fuel)
    (hp : ∀ u ∈ l, ∀ c ∈ u.data, c ≠ '"' ∧ c ≠ '\\') :
    parseValue (fuel + 1) ('[' :: (dumpsArr (l.map .str) ++ ']' :: rest)) =
      some (.arr (l.map JValue.str), rest) := by
  cases l with
  | nil => rfl
  | cons u l2 =>
    cases fuel with
    | zero => simp at hlen
    | succ f =>
      obtain ⟨t, ht⟩ := dumpsArr_strs_quote u l2
      have harr := parseArrAux_strs f (u :: l2) (f + 1) rest (by simp)
        (by simpa using hlen) hp
      rw [ht] at harr ⊢
      show parseValue (f + 1 + 1) ('[' :: '"' :: (t ++ ']' :: rest)) = _
      rw [parseValue_arr_quote]
      have harr2 : parseArrAux (parseValue (f + 1)) (f + 1) ('"' :: (t ++ ']' :: rest)) =
          some ((u :: l2).map JValue.str, rest) := by
        simpa using harr
      rw [harr2]

lemma dumpsArr_strs_length (l : List String) :
    l.length ≤ (dumpsArr (l.map .str)).length + 1 := by
  induction l with
  | nil => simp
  | cons u l2 ih =>
    cases l2 with
    | nil => simp [dumpsArr, dumpsChars]
    | cons w l3 =>
      simp only [List.map_cons, dumpsArr, dumpsChars, List.length_append,
        List.length_cons] at ih ⊢
      omega

/-- Encoding a list of plain strings with `json.dumps` and decoding it
with `json.loads` gives back exactly the same list. -/
lemma loads_dumps_strs (l : List String)
    (hp : ∀ u ∈ l, ∀ c ∈ u.data, c ≠ '"' ∧ c ≠ '\\') :
    loads (dumps (.arr (l.map .str))) = some (.arr (l.map JValue.str)) := by
  have hshape : (dumps (.arr (l.map .str))).data =
      '[' :: (dumpsArr (l.map .str) ++ ']' :: []) := rfl
  have hfuel : l.length ≤ (dumpsArr (l.map .str)).length + 2 :=
    le_trans (dumpsArr_strs_length l) (by omega)
  have hmain := parseValue_arr_strs ((dumpsArr (l.map .str)).length + 2) l [] hfuel hp
  unfold loads
  rw [hshape]
  rw [skipWs_not_ws _ (show isJsonWs '[' = false from rfl)]
  have hlen : ('[' :: (dumpsArr (l.map .str) ++ ']' :: [])).length + 1 =
      (dumpsArr (l.map .str)).length + 2 + 1 := by
    simp
  rw [hlen, hmain]
  rfl

lemma dumps_arr_ne_empty (x : List JValue) : dumps (.arr x) ≠ "" := by
  simp [dumps, String.ext_iff, dumpsChars]

/-- Claim C5: creating a strategy whose `images` request field is a
list of plain URL strings and reading the record back (the response
carries the stored record's `to_dict`) yields the same ordered
sequence; creating with `images` omitted yields the empty sequence. -/
theorem strategy_images_roundtrip (db : DB) (now : Nat) (genId t c : String)
    (urls : List String)
    (h : ∀ u ∈ urls, ∀ ch ∈ u.data, plainChar ch = true) :
    (handle_strategies_post db now genId ⟨some t, some c, some (.arr (urls.map .str))⟩).1 =
      Resp.successStrategy ⟨genId, t, c, .arr (urls.map .str), now⟩ ∧
    (handle_strategies_post db now genId ⟨some t, some c, none⟩).1 =
      Resp.successStrategy ⟨genId, t, c, .arr [], now⟩ := by
  have hp : ∀ u ∈ urls, ∀ ch ∈ u.data, ch ≠ '"' ∧ ch ≠ '\\' :=
    fun u hu ch hc => plainChar_spec (h u hu ch hc)
  constructor
  · simp only [handle_strategies_post, Strategy.to_dict, Option.getD_some]
    simp [dumps_arr_ne_empty, loads_dumps_strs urls hp]
  · simp only [handle_strategies_post, Strategy.to_dict, Option.getD_none]
    simp [dumps_arr_ne_empty, show loads (dumps (.arr [])) = some (.arr []) from rfl]

def w5Urls : List String := ["http://a", "http://b"]

theorem strategy_images_roundtrip_witness :
    (handle_strategies_post DB.empty 0 ("w5")
        ⟨some ("T"), some ("C"), some (.arr (w5Urls.map .str))⟩).1 =
      Resp.successStrategy ⟨"w5", "T", "C", .arr (w5Urls.map .str), 0⟩ ∧
    (handle_strategies_post DB.empty 0 ("w5") ⟨some ("T"), some ("C"), none⟩).1 =
      Resp.successStrategy ⟨"w5", "T", "C", .arr [], 0⟩ :=
  strategy_images_roundtrip DB.empty 0 ("w5") ("T") ("C") w5Urls (by decide)

end SignalXPro